import Mathlib

set_option maxRecDepth 8192

/-!
Shallow embedding of the obsidian-transcription plugin: the multipart
request construction of `src/transcribe.ts` and the link collection,
orchestration continuation and document splicing of the plugin main
module. JavaScript strings are modeled as `List Char`; byte buffers as
`List Nat` (each element one byte value); TypeScript `number` fields that
the program never computes with are carried opaquely as `Int`.
-/

/-- The characters of a string literal. -/
def str (s : String) : List Char := s.data

/-- JavaScript `String.prototype.split` with a single-character separator:
splitting `"a.b"` on `.` gives `["a", "b"]`, splitting `""` gives `[""]`,
and the result is never the empty list. -/
def jsSplit (sep : Char) : List Char → List (List Char)
  | [] => [[]]
  | c :: rest =>
    if c = sep then [] :: jsSplit sep rest
    else
      match jsSplit sep rest with
      | [] => [[c]]
      | g :: gs => (c :: g) :: gs

/-- The position of the first occurrence of `needle` in `hay`, `none` when
`needle` never occurs (JavaScript `indexOf` without the `-1` encoding). -/
def firstOccur (needle : List Char) : List Char → Option Nat
  | [] => if needle.isPrefixOf ([] : List Char) then some 0 else none
  | c :: rest =>
    if needle.isPrefixOf (c :: rest) then some 0
    else (firstOccur needle rest).map (· + 1)

/-- JavaScript `String.prototype.indexOf`: the first occurrence, `-1` when
the needle is absent. -/
def jsIndexOf (hay needle : List Char) : Int :=
  match firstOccur needle hay with
  | some n => (n : Int)
  | none => -1

/-- Whether `needle` occurs as a contiguous substring of `hay`. -/
def containsSub (needle hay : List Char) : Bool :=
  (firstOccur needle hay).isSome

/-- Resolution of a JavaScript `slice` index against a string length:
negative indices count back from the end, and indices are clamped. -/
def jsRelIndex (len : Nat) (i : Int) : Nat :=
  if i < 0 then len - min len i.natAbs else min i.toNat len

/-- JavaScript `s.slice(0, i)`. -/
def jsSliceUpTo (s : List Char) (i : Int) : List Char :=
  s.take (jsRelIndex s.length i)

/-- JavaScript `s.slice(i)`. -/
def jsSliceFrom (s : List Char) (i : Int) : List Char :=
  s.drop (jsRelIndex s.length i)

/-- The ECMAScript WhiteSpace and LineTerminator code points recognized by
`String.prototype.trim`. -/
def isJsWhitespace (c : Char) : Bool :=
  ([' ', '\t', '\n', '\r', '\u000B', '\u000C', '\u00A0', '\uFEFF',
    '\u1680', '\u2000', '\u2001', '\u2002', '\u2003', '\u2004', '\u2005',
    '\u2006', '\u2007', '\u2008', '\u2009', '\u200A', '\u2028', '\u2029',
    '\u202F', '\u205F', '\u3000'] : List Char).contains c

/-- JavaScript `String.prototype.trim`: whitespace stripped from both
ends. -/
def jsTrim (s : List Char) : List Char :=
  ((s.dropWhile isJsWhitespace).reverse.dropWhile isJsWhitespace).reverse

/-- `TextEncoder().encode`: the UTF-8 bytes of a string, as naturals. -/
def encodeUTF8 : List Char → List Nat
  | [] => []
  | c :: rest => (String.utf8EncodeChar c).map UInt8.toNat ++ encodeUTF8 rest

/-- `TranscriptionSegment` from `src/transcribe.ts`. TypeScript `number`
fields are carried opaquely as `Int`: the program never computes with
them. -/
structure TranscriptionSegment where
  id : Int
  seek : Int
  start : Int
  «end» : Int
  text : List Char
  tokens : List Int
  temperature : Int
  avg_logprob : Int
  compression_ratio : Int
  no_speech_prob : Int

/-- `TranscriptionResult` from `src/transcribe.ts`. -/
structure TranscriptionResult where
  text : List Char
  segments : List TranscriptionSegment
  language : List Char

/-- `TranscriptionSettings` from the plugin main module. -/
structure TranscriptionSettings where
  timestamps : Bool
  transcribeFileExtensions : List Char
  whisperASRUrl : List Char
  debug : Bool

/-- `DEFAULT_SETTINGS` from the plugin main module. -/
def DEFAULT_SETTINGS : TranscriptionSettings :=
  { timestamps := false,
    transcribeFileExtensions := str "mp3,wav,webm",
    whisperASRUrl := str "http://localhost:9000",
    debug := false }

/-- `randomBoundaryString` of `getTranscriptionWhisperASR`: the fixed
prefix `"Boundary"` followed by the 16-character random part `r` produced
by `randomString 16`. -/
def randomBoundaryString (r : List Char) : List Char := str "Boundary" ++ r

/-- `pre_string` of `getTranscriptionWhisperASR`. -/
def pre_string (b : List Char) : List Char :=
  str "------" ++ b ++
    str "\r\nContent-Disposition: form-data; name=\"audio_file\"; filename=\"blob\"\r\nContent-Type: \"application/octet-stream\"\r\n\r\n"

/-- `post_string` of `getTranscriptionWhisperASR`. -/
def post_string (b : List Char) : List Char :=
  str "\r\n------" ++ b ++ str "--"

/-- The request body `concatenated` of `getTranscriptionWhisperASR`:
encoded `pre_string`, then the raw file bytes, then encoded
`post_string`. -/
def concatenated (b : List Char) (fileBytes : List Nat) : List Nat :=
  encodeUTF8 (pre_string b) ++ fileBytes ++ encodeUTF8 (post_string b)

/-- The `contentType` request option value of
`getTranscriptionWhisperASR`. -/
def contentTypeHeaderValue (b : List Char) : List Char :=
  str "multipart/form-data; boundary=----" ++ b

/-- The boundary literal as it appears after `boundary=` in the
`Content-Type` header value. -/
def headerBoundaryLiteral (b : List Char) : List Char := str "----" ++ b

/-- The delimiter string embedded in the body (at its start and in the
trailing terminator). -/
def bodyDelimiter (b : List Char) : List Char := str "------" ++ b

/-- Carriage return plus line feed. -/
def crlf : List Char := str "\r\n"

/-- The `Content-Disposition` line of the part header, naming field
`audio_file` with filename `"blob"`. -/
def dispositionLine : List Char :=
  str "Content-Disposition: form-data; name=\"audio_file\"; filename=\"blob\""

/-- The `Content-Type` line of the part header. -/
def contentTypeLine : List Char :=
  str "Content-Type: \"application/octet-stream\""

/-- The header block: opening delimiter line, disposition line,
content-type line, blank line. -/
def headerBlock (b : List Char) : List Char :=
  bodyDelimiter b ++ crlf ++ dispositionLine ++ crlf ++ contentTypeLine ++ crlf ++ crlf

/-- The trailing boundary terminator of the body. -/
def trailingTerminator (b : List Char) : List Char :=
  crlf ++ bodyDelimiter b ++ str "--"

/-- `linkedFilePath.split(".").pop()` from the collection loop.
`Array.prototype.pop` on an empty array yields `undefined`, hence the
`Option`; `jsSplit` never returns an empty list, so in fact it is always
`some`. -/
def linkedFileExtension (p : List Char) : Option (List Char) :=
  (jsSplit '.' p).getLast?

/-- The skip condition of the collection loop: the extension is
`undefined` or is not a member of `transcribeFileExtensions.split(",")`. -/
def extensionNotAllowed (extSetting p : List Char) : Bool :=
  match linkedFileExtension p with
  | none => true
  | some e => !((jsSplit ',' extSetting).contains e)

/-- The collection loop building `filesToTranscribe`: skip when the
extension is not allowed, otherwise keep the link when it resolves.
`resolvesToTFile` stands for `getAbstractFileByPath` returning a `TFile`;
a link that does not resolve is skipped with a debug log, no error. -/
def filesToTranscribe (extSetting : List Char) (resolvesToTFile : List Char → Bool) :
    List (List Char) → List (List Char)
  | [] => []
  | p :: rest =>
    if extensionNotAllowed extSetting p then
      filesToTranscribe extSetting resolvesToTFile rest
    else if resolvesToTFile p then
      p :: filesToTranscribe extSetting resolvesToTFile rest
    else
      filesToTranscribe extSetting resolvesToTFile rest

/-- `fileLinkStringTagged`: the citation string for a link text. -/
def fileLinkStringTagged (fileLinkString : List Char) : List Char :=
  str "[[" ++ fileLinkString ++ str "]]"

/-- `startReplacementIndex` of the success continuation:
`fileText.indexOf(tagged) + tagged.length`. -/
def startReplacementIndex (fileText tagged : List Char) : Int :=
  jsIndexOf fileText tagged + tagged.length

/-- The `segments` local of the success continuation: each segment's text
individually trimmed, joined by single newlines. -/
def joinedSegments (segs : List TranscriptionSegment) : List Char :=
  List.intercalate ['\n'] (segs.map (fun s => jsTrim s.text))

/-- The new document text assembled by the success continuation:
`[fileText.slice(0, i), "\n" + segments, fileText.slice(i)].join("")`
with `i` the `startReplacementIndex`. -/
def splicedText (fileText tagged : List Char) (segs : List TranscriptionSegment) :
    List Char :=
  jsSliceUpTo fileText (startReplacementIndex fileText tagged)
    ++ ('\n' :: joinedSegments segs)
    ++ jsSliceFrom fileText (startReplacementIndex fileText tagged)

/-- `fileLinkStringJson`: the last dot-segment of the link text with
`.json` appended. The `getD` default spells out how a JavaScript template
literal would print `undefined`; it is unreachable because `jsSplit`
never returns an empty list. -/
def fileLinkStringJson (fileLinkString : List Char) : List Char :=
  ((jsSplit '.' fileLinkString).getLast?.getD (str "undefined")) ++ str ".json"

/-- The path handed to `createBinary` for the sidecar artifact: the audio
file's parent directory, a slash, and `fileLinkStringJson`. -/
def sidecarPath (parentPath fileLinkString : List Char) : List Char :=
  parentPath ++ str "/" ++ fileLinkStringJson fileLinkString

/-- The `Notice` text of the failure continuation: file name and error
detail in debug mode, otherwise a fixed generic message. -/
def failureNoticeMessage (debug : Bool) (fileName errorText : List Char) : List Char :=
  if debug then str "Error transcribing file " ++ fileName ++ (str ": " ++ errorText)
  else str "Error transcribing file, enable debug mode to see more"

/-- Spec-side, for comparison only: the position of the last occurrence
of `needle` in `hay`, following the spec's words about the citation's
last occurrence. -/
def lastOccur (needle hay : List Char) : Option Nat :=
  ((List.range (hay.length + 1)).filter
    (fun n => needle.isPrefixOf (hay.drop n))).getLast?

/-- The substring after the final `.` of `p`, or the whole of `p` when it
contains no `.`. -/
def lastDotComponent (p : List Char) : List Char :=
  (p.reverse.takeWhile (fun c => c != '.')).reverse

/-- Spec-side, for comparison only: the extension read as the claim
words it — the substring after the final `.`, absent when the path has
no `.`. -/
def specExtensionOf (p : List Char) : Option (List Char) :=
  if p.contains '.' then some (lastDotComponent p) else none

/-- Spec-side, for comparison only: the candidate subsequence as the
claim states it — the links whose extension is a member of `E`. -/
def specCandidates (E : List (List Char)) (L : List (List Char)) :
    List (List Char) :=
  L.filter (fun p =>
    match specExtensionOf p with
    | none => false
    | some e => E.contains e)

/-- A transcription segment whose `text` is `"Hello"`. -/
def segHello : TranscriptionSegment :=
  { id := 0, seek := 0, start := 0, «end» := 0, text := str "Hello",
    tokens := [], temperature := 0, avg_logprob := 0,
    compression_ratio := 0, no_speech_prob := 0 }

/-- A transcription segment whose `text` is `" world "`. -/
def segWorld : TranscriptionSegment :=
  { id := 1, seek := 0, start := 0, «end» := 0, text := str " world ",
    tokens := [], temperature := 0, avg_logprob := 0,
    compression_ratio := 0, no_speech_prob := 0 }


theorem encodeUTF8_append (a b : List Char) :
    encodeUTF8 (a ++ b) = encodeUTF8 a ++ encodeUTF8 b := by
  induction a with
  | nil => simp [encodeUTF8]
  | cons c t ih => simp [encodeUTF8, ih]

theorem isPrefixOf_self_append (n b : List Char) :
    n.isPrefixOf (n ++ b) = true := by
  induction n with
  | nil => simp [List.isPrefixOf]
  | cons c t ih => simp [List.isPrefixOf, ih]

theorem firstOccur_eq_some (needle hay : List Char) (n : Nat)
    (h : firstOccur needle hay = some n) :
    needle.isPrefixOf (hay.drop n) = true
      ∧ ∀ m, m < n → needle.isPrefixOf (hay.drop m) = false := by
  induction hay generalizing n with
  | nil =>
    unfold firstOccur at h
    by_cases hp : needle.isPrefixOf ([] : List Char) = true
    · rw [if_pos hp] at h
      cases h
      exact ⟨hp, fun m hm => absurd hm (Nat.not_lt_zero m)⟩
    · have hp' : needle.isPrefixOf ([] : List Char) = false := Bool.eq_false_iff.mpr hp
      rw [hp'] at h
      simp at h
  | cons c rest ih =>
    unfold firstOccur at h
    by_cases hp : needle.isPrefixOf (c :: rest) = true
    · rw [if_pos hp] at h
      cases h
      exact ⟨hp, fun m hm => absurd hm (Nat.not_lt_zero m)⟩
    · have hp' : needle.isPrefixOf (c :: rest) = false := Bool.eq_false_iff.mpr hp
      rw [hp'] at h
      simp at h
      obtain ⟨k, hk, hkn⟩ := h
      subst hkn
      obtain ⟨h1, h2⟩ := ih k hk
      refine ⟨by rw [List.drop_succ_cons]; exact h1, ?_⟩
      intro m hm
      cases m with
      | zero => rw [List.drop_zero]; exact hp'
      | succ m' =>
        have hmk : m' < k := Nat.lt_of_succ_lt_succ hm
        rw [List.drop_succ_cons]
        exact h2 m' hmk

theorem containsSub_sandwich (n a b : List Char) :
    containsSub n (a ++ (n ++ b)) = true := by
  induction a with
  | nil =>
    simp only [List.nil_append]
    unfold containsSub
    cases h : n ++ b with
    | nil =>
      have hn : n = [] := by
        cases n with
        | nil => rfl
        | cons x t => simp at h
      subst hn
      simp [firstOccur]
    | cons c rest =>
      have : n.isPrefixOf (c :: rest) = true := by
        rw [← h]; exact isPrefixOf_self_append n b
      simp [firstOccur, this]
  | cons x a' ih =>
    unfold containsSub at ih ⊢
    simp only [List.cons_append]
    unfold firstOccur
    by_cases hp : n.isPrefixOf (x :: (a' ++ (n ++ b))) = true
    · simp [hp]
    · simp [Bool.not_eq_true] at hp
      simp [hp, Option.isSome_map]
      simpa using ih

theorem firstOccur_of_not_containsSub (needle hay : List Char)
    (h : containsSub needle hay = false) : firstOccur needle hay = none := by
  unfold containsSub at h
  exact Option.not_isSome_iff_eq_none.mp (by simp [h])

theorem jsSplit_ne_nil (sep : Char) (l : List Char) : jsSplit sep l ≠ [] := by
  cases l with
  | nil => simp [jsSplit]
  | cons c rest =>
    unfold jsSplit
    by_cases hc : c = sep
    · simp [hc]
    · simp only [if_neg hc]
      cases h : jsSplit sep rest with
      | nil => simp
      | cons g gs => simp

theorem takeWhile_of_all (p : Char → Bool) (l : List Char) (h : l.all p = true) :
    l.takeWhile p = l := by
  induction l with
  | nil => rfl
  | cons c t ih =>
    simp only [List.all_cons, Bool.and_eq_true] at h
    simp [List.takeWhile_cons, h.1, ih h.2]

theorem takeWhile_append_last_false (p : Char → Bool) (l : List Char) (x : Char)
    (h : p x = false) : (l ++ [x]).takeWhile p = l.takeWhile p := by
  induction l with
  | nil => simp [List.takeWhile_cons, h]
  | cons c t ih =>
    simp only [List.cons_append, List.takeWhile_cons]
    cases hpc : p c with
    | true => simp [ih]
    | false => simp

theorem takeWhile_append_last_of_not_all (p : Char → Bool) (l : List Char) (x : Char)
    (h : l.all p = false) : (l ++ [x]).takeWhile p = l.takeWhile p := by
  induction l with
  | nil => simp at h
  | cons c t ih =>
    simp only [List.all_cons] at h
    simp only [List.cons_append, List.takeWhile_cons]
    cases hpc : p c with
    | true =>
      have ht : t.all p = false := by simpa [hpc] using h
      simp [ih ht]
    | false => simp

theorem jsSplit_of_all (sep : Char) (l : List Char)
    (h : l.all (fun c => c != sep) = true) : jsSplit sep l = [l] := by
  induction l with
  | nil => rfl
  | cons c t ih =>
    simp only [List.all_cons, Bool.and_eq_true] at h
    have hc : ¬(c = sep) := by simpa using h.1
    unfold jsSplit
    simp only [if_neg hc, ih h.2]

theorem jsSplit_single (sep : Char) (l g : List Char)
    (h : jsSplit sep l = [g]) : g = l ∧ l.all (fun c => c != sep) = true := by
  induction l generalizing g with
  | nil =>
    unfold jsSplit at h
    cases h
    exact ⟨rfl, rfl⟩
  | cons c t ih =>
    unfold jsSplit at h
    by_cases hc : c = sep
    · rw [if_pos hc] at h
      have := jsSplit_ne_nil sep t
      simp at h
      exact absurd h.2 this
    · rw [if_neg hc] at h
      cases hs : jsSplit sep t with
      | nil => exact absurd hs (jsSplit_ne_nil sep t)
      | cons g' gs =>
        rw [hs] at h
        simp at h
        obtain ⟨hg, hgs⟩ := h
        subst hgs
        obtain ⟨h1, h2⟩ := ih g' hs
        subst h1
        constructor
        · rw [hg]
        · simp [List.all_cons, hc, h2]

theorem jsSplit_cons_cons (sep : Char) (l a b : List Char) (gs : List (List Char))
    (h : jsSplit sep l = a :: b :: gs) : l.all (fun c => c != sep) = false := by
  cases hall : l.all (fun c => c != sep) with
  | false => rfl
  | true =>
    rw [jsSplit_of_all sep l hall] at h
    simp at h

theorem all_reverse_eq (p : Char → Bool) (l : List Char) :
    l.reverse.all p = l.all p := by
  induction l with
  | nil => rfl
  | cons c t ih => simp [List.all_append, ih, Bool.and_comm]

theorem jsSplit_getLast (sep : Char) (l : List Char) :
    (jsSplit sep l).getLast? = some ((l.reverse.takeWhile (fun c => c != sep)).reverse) := by
  induction l with
  | nil => simp [jsSplit]
  | cons c t ih =>
    unfold jsSplit
    by_cases hc : c = sep
    · subst hc
      rw [if_pos rfl]
      cases hs : jsSplit c t with
      | nil => exact absurd hs (jsSplit_ne_nil c t)
      | cons g gs =>
        rw [hs] at ih
        rw [List.getLast?_cons_cons, ih]
        have hx : (fun z => z != c) c = false := by simp
        rw [List.reverse_cons,
          takeWhile_append_last_false (fun z => z != c) t.reverse c hx]
    · rw [if_neg hc]
      cases hs : jsSplit sep t with
      | nil => exact absurd hs (jsSplit_ne_nil sep t)
      | cons g gs =>
        rw [hs] at ih
        cases gs with
        | nil =>
          obtain ⟨hg, hall⟩ := jsSplit_single sep t g hs
          have hx : (c != sep) = true := by simpa using hc
          have hallrev : t.reverse.all (fun z => z != sep) = true := by
            rw [all_reverse_eq]; exact hall
          have hallfull : (t.reverse ++ [c]).all (fun z => z != sep) = true := by
            simp [List.all_append, hallrev, hx]
          rw [List.getLast?_singleton, List.reverse_cons,
            takeWhile_of_all (fun z => z != sep) (t.reverse ++ [c]) hallfull,
            List.reverse_append]
          simp [hg]
        | cons g2 gs2 =>
          have hall : t.all (fun z => z != sep) = false :=
            jsSplit_cons_cons sep t g g2 gs2 hs
          have hallrev : t.reverse.all (fun z => z != sep) = false := by
            rw [all_reverse_eq]; exact hall
          rw [List.getLast?_cons_cons] at ih
          rw [List.getLast?_cons_cons, ih, List.reverse_cons,
            takeWhile_append_last_of_not_all (fun z => z != sep) t.reverse c hallrev]

theorem linkedFileExtension_eq (p : List Char) :
    linkedFileExtension p = some (lastDotComponent p) := by
  unfold linkedFileExtension lastDotComponent
  exact jsSplit_getLast '.' p

theorem filesToTranscribe_eq_filter (extSetting : List Char)
    (resolvesToTFile : List Char → Bool) (L : List (List Char)) :
    filesToTranscribe extSetting resolvesToTFile L
      = L.filter (fun p =>
          (jsSplit ',' extSetting).contains (lastDotComponent p)
            && resolvesToTFile p) := by
  induction L with
  | nil => rfl
  | cons p rest ih =>
    unfold filesToTranscribe
    have hext : extensionNotAllowed extSetting p
        = !((jsSplit ',' extSetting).contains (lastDotComponent p)) := by
      unfold extensionNotAllowed
      rw [linkedFileExtension_eq]
    rw [hext, List.filter_cons]
    cases hc : (jsSplit ',' extSetting).contains (lastDotComponent p) with
    | false => simp [ih]
    | true =>
      cases hr : resolvesToTFile p with
      | false => simp [hr, ih]
      | true => simp [hr, ih]

theorem all_ne_of_not_contains (x : Char) (l : List Char)
    (h : l.contains x = false) : l.all (fun z => z != x) = true := by
  induction l with
  | nil => rfl
  | cons c t ih =>
    simp only [List.contains_cons, Bool.or_eq_false_iff] at h
    simp only [List.all_cons, Bool.and_eq_true]
    constructor
    · have hxc : ¬ x = c := by simpa using h.1
      have hne : c ≠ x := fun hcx => hxc hcx.symm
      simpa using hne
    · exact ih h.2

theorem lastDotComponent_of_not_contains (p : List Char)
    (h : p.contains '.' = false) : lastDotComponent p = p := by
  unfold lastDotComponent
  have hall : p.reverse.all (fun z => z != '.') = true := by
    rw [all_reverse_eq]
    exact all_ne_of_not_contains '.' p h
  rw [takeWhile_of_all _ _ hall, List.reverse_reverse]

theorem jsRelIndex_ofNat (len a : Nat) : jsRelIndex len (a : Int) = min a len := by
  unfold jsRelIndex
  rw [if_neg (by omega)]
  simp

theorem take_min_length (l : List Char) (a : Nat) :
    l.take (min a l.length) = l.take a := by
  rcases Nat.le_total a l.length with h | h
  · rw [Nat.min_eq_left h]
  · rw [Nat.min_eq_right h, List.take_length, List.take_of_length_le h]

theorem drop_min_length (l : List Char) (a : Nat) :
    l.drop (min a l.length) = l.drop a := by
  rcases Nat.le_total a l.length with h | h
  · rw [Nat.min_eq_left h]
  · rw [Nat.min_eq_right h, List.drop_length, List.drop_eq_nil_of_le h]

theorem jsSliceUpTo_ofNat (s : List Char) (a : Nat) :
    jsSliceUpTo s (a : Int) = s.take a := by
  unfold jsSliceUpTo
  rw [jsRelIndex_ofNat, take_min_length]

theorem jsSliceFrom_ofNat (s : List Char) (a : Nat) :
    jsSliceFrom s (a : Int) = s.drop a := by
  unfold jsSliceFrom
  rw [jsRelIndex_ofNat, drop_min_length]

theorem pre_string_eq_headerBlock (b : List Char) :
    pre_string b = headerBlock b := by
  have h : str "\r\nContent-Disposition: form-data; name=\"audio_file\"; filename=\"blob\"\r\nContent-Type: \"application/octet-stream\"\r\n\r\n"
      = crlf ++ (dispositionLine ++ (crlf ++ (contentTypeLine ++ (crlf ++ crlf)))) := by decide
  unfold pre_string headerBlock bodyDelimiter
  rw [h]
  simp [List.append_assoc]

theorem post_string_eq_trailingTerminator (b : List Char) :
    post_string b = trailingTerminator b := by
  have h : str "\r\n------" = crlf ++ str "------" := by decide
  unfold post_string trailingTerminator bodyDelimiter
  rw [h]
  simp [List.append_assoc]

/-- Claim C1: for every random part `r` and every byte sequence `B` read
from the audio file, the multipart body is exactly the concatenation of
the header block (opening delimiter line, `Content-Disposition` line
naming field `audio_file` with filename `"blob"`, `Content-Type` line,
blank line), then `B` unmodified, then the trailing boundary terminator;
and the boundary literal sent in the `Content-Type` header, prefixed with
the leading double hyphen, is exactly the delimiter string embedded at
both places in the body. -/
theorem multipart_body_structure (r : List Char) (B : List Nat) :
    concatenated (randomBoundaryString r) B
        = encodeUTF8 (headerBlock (randomBoundaryString r)) ++ B
            ++ encodeUTF8 (trailingTerminator (randomBoundaryString r))
      ∧ contentTypeHeaderValue (randomBoundaryString r)
          = str "multipart/form-data; boundary="
              ++ headerBoundaryLiteral (randomBoundaryString r)
      ∧ str "--" ++ headerBoundaryLiteral (randomBoundaryString r)
          = bodyDelimiter (randomBoundaryString r) := by
  refine ⟨?_, ?_, ?_⟩
  · unfold concatenated
    rw [pre_string_eq_headerBlock, post_string_eq_trailingTerminator]
  · have h : str "multipart/form-data; boundary=----"
        = str "multipart/form-data; boundary=" ++ str "----" := by decide
    unfold contentTypeHeaderValue headerBoundaryLiteral
    rw [h, List.append_assoc]
  · have h : str "--" ++ str "----" = str "------" := by decide
    unfold headerBoundaryLiteral bodyDelimiter
    rw [← List.append_assoc, h]

/-- Claim C2 counterexample: in the document `"[[x]] [[x]]"` the citation
`"[[x]]"` last occurs at position 6, so an insertion point immediately
after the last occurrence would be 11; the code computes 5, immediately
after the first occurrence. -/
theorem insertion_point_not_after_last_occurrence :
    lastOccur (fileLinkStringTagged (str "x")) (str "[[x]] [[x]]") = some 6
      ∧ startReplacementIndex (str "[[x]] [[x]]") (fileLinkStringTagged (str "x")) = 5
      ∧ (5 : Int) ≠ 6 + 5 := by decide

/-- Claim C2 amended: for every document text and citation, the insertion
point is computed immediately after the FIRST occurrence of the
reference's literal citation string in the freshly re-read document text
(the code uses `indexOf`, the first occurrence, not the last). -/
theorem insertion_point_after_first_occurrence (fileText linktext : List Char) (n : Nat)
    (h : firstOccur (fileLinkStringTagged linktext) fileText = some n) :
    startReplacementIndex fileText (fileLinkStringTagged linktext)
        = (n : Int) + (fileLinkStringTagged linktext).length
      ∧ (fileLinkStringTagged linktext).isPrefixOf (fileText.drop n) = true
      ∧ ∀ m, m < n →
          (fileLinkStringTagged linktext).isPrefixOf (fileText.drop m) = false := by
  obtain ⟨h1, h2⟩ := firstOccur_eq_some (fileLinkStringTagged linktext) fileText n h
  refine ⟨?_, h1, h2⟩
  unfold startReplacementIndex jsIndexOf
  rw [h]

/-- Witness for the amended claim C2 at a concrete document. -/
theorem insertion_point_after_first_occurrence_ex :
    firstOccur (fileLinkStringTagged (str "x")) (str "a [[x]] b [[x]]") = some 2
      ∧ (startReplacementIndex (str "a [[x]] b [[x]]") (fileLinkStringTagged (str "x"))
            = (2 : Int) + (fileLinkStringTagged (str "x")).length
          ∧ (fileLinkStringTagged (str "x")).isPrefixOf
              ((str "a [[x]] b [[x]]").drop 2) = true
          ∧ ∀ m, m < 2 →
              (fileLinkStringTagged (str "x")).isPrefixOf
                ((str "a [[x]] b [[x]]").drop m) = false) :=
  ⟨by decide,
    insertion_point_after_first_occurrence (str "a [[x]] b [[x]]") (str "x") 2 (by decide)⟩

/-- Claim C3 counterexample: for the link text `"Recording.webm"` the
sidecar artifact name the code builds is `"webm.json"` — the last
dot-segment with `.json` appended — not the audio file's stem followed by
`.json`, which would be `"Recording.json"`. -/
theorem sidecar_name_not_stem :
    fileLinkStringJson (str "Recording.webm") = str "webm.json"
      ∧ fileLinkStringJson (str "Recording.webm") ≠ str "Recording.json" := by decide

/-- Claim C3 amended: for every parent directory and link text, the
sidecar artifact is written beside the audio file (in its parent
directory) under the name formed from the link text's final
dot-separated segment (the substring after the final `.`, or the whole
link text when it has no `.`) followed by `.json`. -/
theorem sidecar_name_last_dot_segment (parentPath link : List Char) :
    sidecarPath parentPath link
      = parentPath ++ str "/" ++ (lastDotComponent link ++ str ".json") := by
  unfold sidecarPath fileLinkStringJson
  have h : (jsSplit '.' link).getLast? = some (lastDotComponent link) :=
    linkedFileExtension_eq link
  rw [h]
  simp [List.append_assoc]

/-- Claim C4 counterexample: with the allowed-extension setting `"note"`
and the discovered link `"note"` (which has no `.`), every link
resolving, the code's candidate output keeps the link — `split(".").pop()`
on a dotless path yields the whole path — while the claimed subsequence
(extension read as the substring after the final `.`) is empty. -/
theorem link_collector_keeps_dotless_link :
    filesToTranscribe (str "note") (fun _ => true) [str "note"] = [str "note"]
      ∧ specCandidates (jsSplit ',' (str "note")) [str "note"] = [] := by decide

/-- Claim C4 amended: for every allowed-extension setting, resolution
predicate and discovered link list `L`, the candidate output is exactly
the subsequence of `L` — original order and duplicates preserved — whose
final `.`-separated segment (the substring after the final `.`, or the
entire path when it contains no `.`) case-sensitively equals a member of
the comma-split setting, restricted to links that resolve to a file. -/
theorem link_collector_filter (extSetting : List Char)
    (resolvesToTFile : List Char → Bool) (L : List (List Char)) :
    filesToTranscribe extSetting resolvesToTFile L
      = L.filter (fun p =>
          (jsSplit ',' extSetting).contains (lastDotComponent p)
            && resolvesToTFile p) :=
  filesToTranscribe_eq_filter extSetting resolvesToTFile L

/-- Claim C5 counterexample: for the allowed-extension setting
`"wav,note"` the dotless link `"note"` is NOT excluded from the candidate
list — its whole path matches the member `"note"` of the setting. -/
theorem dotless_link_not_always_excluded :
    str "note" ∈ filesToTranscribe (str "wav,note") (fun _ => true)
      [str "note", str "a.wav"] := by decide

/-- Claim C5 amended: a link whose path contains no `.` is excluded from
the candidate list whenever its entire path is not itself a member of the
allowed-extension set (on a dotless path, `split(".").pop()` yields the
whole path); the exclusion is an ordinary skip of the loop, raising no
error — the collection function is total. -/
theorem dotless_link_excluded (extSetting : List Char)
    (resolvesToTFile : List Char → Bool) (L : List (List Char)) (p : List Char)
    (h1 : p.contains '.' = false)
    (h2 : (jsSplit ',' extSetting).contains p = false) :
    p ∉ filesToTranscribe extSetting resolvesToTFile L := by
  rw [filesToTranscribe_eq_filter]
  intro hmem
  have hpred := (List.mem_filter.mp hmem).2
  rw [lastDotComponent_of_not_contains p h1] at hpred
  rw [h2] at hpred
  simp at hpred

/-- Witness for the amended claim C5 at a concrete setting and link
list. -/
theorem dotless_link_excluded_ex :
    (str "note").contains '.' = false
      ∧ (jsSplit ',' (str "mp3,wav,webm")).contains (str "note") = false
      ∧ str "note" ∉ filesToTranscribe (str "mp3,wav,webm") (fun _ => true)
          [str "note", str "b.mp3"] :=
  ⟨by decide, by decide,
    dotless_link_excluded (str "mp3,wav,webm") (fun _ => true)
      [str "note", str "b.mp3"] (str "note") (by decide) (by decide)⟩

/-- Claim C6 counterexample: with debug mode disabled, the notification
emitted for a failed transcription of `"a.mp3"` does not name the failing
file — it is the fixed generic message. -/
theorem failure_notice_without_file_name :
    containsSub (str "a.mp3")
      (failureNoticeMessage false (str "a.mp3") (str "boom")) = false := by decide

/-- Claim C6 amended: the notification names the failing file and
includes the error detail only when debug mode is enabled; otherwise it
is the fixed generic message pointing at debug mode, which does not name
the file. -/
theorem failure_notice_debug_gated (fileName errorText : List Char) :
    failureNoticeMessage true fileName errorText
        = str "Error transcribing file " ++ fileName ++ (str ": " ++ errorText)
      ∧ containsSub fileName (failureNoticeMessage true fileName errorText) = true
      ∧ containsSub errorText (failureNoticeMessage true fileName errorText) = true
      ∧ failureNoticeMessage false fileName errorText
          = str "Error transcribing file, enable debug mode to see more"
      ∧ containsSub (str "debug mode")
          (failureNoticeMessage false fileName errorText) = true := by
  refine ⟨rfl, ?_, ?_, rfl, ?_⟩
  · unfold failureNoticeMessage
    rw [if_pos rfl]
    exact containsSub_sandwich fileName (str "Error transcribing file ")
      (str ": " ++ errorText)
  · unfold failureNoticeMessage
    rw [if_pos rfl]
    have h : str "Error transcribing file " ++ fileName ++ (str ": " ++ errorText)
        = (str "Error transcribing file " ++ fileName ++ str ": ") ++ (errorText ++ []) := by
      simp [List.append_assoc]
    rw [h]
    exact containsSub_sandwich errorText
      (str "Error transcribing file " ++ fileName ++ str ": ") []
  · have h : failureNoticeMessage false fileName errorText
        = str "Error transcribing file, enable debug mode to see more" := rfl
    rw [h]
    decide

/-- Claim C7 counterexample: for the segment list with texts `"Hello"`
and `" world "`, the characters the code inserts immediately after the
citation are `"\nHello\nworld"` — a leading newline precedes the joined
segments — not exactly `"Hello\nworld"`. -/
theorem inserted_text_leading_newline :
    splicedText (str "See [[a]] end") (fileLinkStringTagged (str "a"))
        [segHello, segWorld]
        = str "See [[a]]" ++ (str "\nHello\nworld" ++ str " end")
      ∧ splicedText (str "See [[a]] end") (fileLinkStringTagged (str "a"))
          [segHello, segWorld]
          ≠ str "See [[a]]" ++ (str "Hello\nworld" ++ str " end") := by decide

/-- Claim C7 amended: for the segment list with texts `"Hello"` and
`" world "`, the text inserted at the insertion point after the
reference citation is exactly `"\nHello\nworld"`: a newline, then the
individually-trimmed segment texts joined by single newlines. -/
theorem inserted_text_newline_joined (fileText tagged : List Char) :
    splicedText fileText tagged [segHello, segWorld]
      = jsSliceUpTo fileText (startReplacementIndex fileText tagged)
          ++ (str "\nHello\nworld"
            ++ jsSliceFrom fileText (startReplacementIndex fileText tagged)) := by
  unfold splicedText
  have h : ('\n' :: joinedSegments [segHello, segWorld]) = str "\nHello\nworld" := by
    decide
  rw [h, List.append_assoc]

/-- Claim C10: when the freshly read document text does not contain the
citation string `"[[<linktext>]]"`, the success path still produces a
document write — `indexOf` yields `-1`, the lookup is unguarded, and the
transcript (with its leading newline) is spliced at character position
`citation length - 1`, a position unrelated to any citation, instead of
the operation being skipped or reported as an error. -/
theorem missing_citation_unguarded_splice (fileText linktext : List Char)
    (segs : List TranscriptionSegment)
    (h : containsSub (fileLinkStringTagged linktext) fileText = false) :
    splicedText fileText (fileLinkStringTagged linktext) segs
      = fileText.take ((fileLinkStringTagged linktext).length - 1)
          ++ (('\n' :: joinedSegments segs)
            ++ fileText.drop ((fileLinkStringTagged linktext).length - 1)) := by
  have hnone := firstOccur_of_not_containsSub (fileLinkStringTagged linktext) fileText h
  have h2 : (str "[[").length = 2 := rfl
  have h3 : (str "]]").length = 2 := rfl
  have hlen : (fileLinkStringTagged linktext).length = linktext.length + 4 := by
    unfold fileLinkStringTagged
    rw [List.length_append, List.length_append, h2, h3]
    omega
  have hidx : startReplacementIndex fileText (fileLinkStringTagged linktext)
      = (((fileLinkStringTagged linktext).length - 1 : Nat) : Int) := by
    unfold startReplacementIndex jsIndexOf
    rw [hnone, hlen]
    push_cast
    omega
  unfold splicedText
  rw [hidx, jsSliceUpTo_ofNat, jsSliceFrom_ofNat, List.append_assoc]

/-- Witness for claim C10 at a concrete document lacking the citation. -/
theorem missing_citation_unguarded_splice_ex :
    containsSub (fileLinkStringTagged (str "a")) (str "hello") = false
      ∧ splicedText (str "hello") (fileLinkStringTagged (str "a")) []
          = (str "hello").take ((fileLinkStringTagged (str "a")).length - 1)
              ++ (('\n' :: joinedSegments [])
                ++ (str "hello").drop ((fileLinkStringTagged (str "a")).length - 1)) :=
  ⟨by decide,
    missing_citation_unguarded_splice (str "hello") (str "a") [] (by decide)⟩
